import Mathlib

/-!
Verification of the xlineparse specification against the repository's code.

The repository ships a thin Python layer (`src/python/xlineparse/__init__.py`)
over a compiled parsing core that is not part of the source tree here; the
core's tokenizer, dispatcher and field coercer are therefore modelled from the
spec (sections 4.2 to 4.5), pinned wherever possible by the behaviour the
repository's own tests (`src/tests/test_xlineparse.py`) exercise.  The Python
layer (error wrapping, enum member conversion, the declarative type adapter
`field_type_to_field`) is translated directly from the Python source.
-/

namespace Xlineparse

instance {ε α : Type} [DecidableEq ε] [DecidableEq α] : DecidableEq (Except ε α)
  | .ok x, .ok y =>
    if h : x = y then .isTrue (by rw [h]) else .isFalse (fun hc => h (by injection hc))
  | .ok _, .error _ => .isFalse (fun hc => Except.noConfusion hc)
  | .error _, .ok _ => .isFalse (fun hc => Except.noConfusion hc)
  | .error e, .error f =>
    if h : e = f then .isTrue (by rw [h]) else .isFalse (fun hc => h (by injection hc))

/-! ## Exact decimals (scaled integers)

Modelled from the spec: "Decimal arbitrary precision: requires an
exact-decimal numeric type (scaled integer representation)".  A `Dec` with
mantissa `m` and scale `s` denotes the rational `m / 10 ^ s`. -/

structure Dec where
  m : Int
  s : Nat
deriving DecidableEq

/-- Exact decimal comparison: `a ≤ b` as rationals, by cross-multiplying. -/
def Dec.leb (a b : Dec) : Bool :=
  decide (a.m * (10 : Int) ^ b.s ≤ b.m * (10 : Int) ^ a.s)

/-- Divide `m` by `10 ^ d`, rounding half away from zero.
Modelled from the spec: "round ... using round-half-away-from-zero". -/
def roundHalfAway (m : Int) (d : Nat) : Int :=
  let p : Nat := 10 ^ d
  let a : Nat := m.natAbs
  let q : Nat := a / p
  let r : Nat := a % p
  let q2 : Nat := if p ≤ 2 * r then q + 1 else q
  if m < 0 then -(q2 : Int) else (q2 : Int)

/-- Rescale a decimal to exactly `p` fractional digits: pad with zeros when it
has fewer, round half away from zero when it has more. -/
def Dec.roundTo (x : Dec) (p : Nat) : Dec :=
  if x.s ≤ p then ⟨x.m * (10 : Int) ^ (p - x.s), p⟩
  else ⟨roundHalfAway x.m (x.s - p), p⟩

/-! ## Textual number parsing -/

def allDigits (cs : List Char) : Bool := cs.all Char.isDigit

def digitsVal (cs : List Char) : Nat :=
  cs.foldl (fun a c => a * 10 + (c.toNat - 48)) 0

/-- Modelled from the spec: "parse as a base-10 signed integer (optional
leading sign, no fractional part, no thousands separators)". -/
def parseIntTok (cs : List Char) : Option Int :=
  match cs with
  | '-' :: rest =>
    if rest ≠ [] && allDigits rest then some (-(digitsVal rest : Int)) else none
  | '+' :: rest =>
    if rest ≠ [] && allDigits rest then some ((digitsVal rest : Int)) else none
  | _ =>
    if cs ≠ [] && allDigits cs then some ((digitsVal cs : Int)) else none

/-- Modelled from the spec: "parse preserving exact decimal scale (no binary
floating-point rounding)".  Optional sign, integer digits, optional dot and
fraction digits; at least one digit overall. -/
def parseDecTok (cs : List Char) : Option Dec :=
  let signed : Int × List Char :=
    match cs with
    | '-' :: r => (-1, r)
    | '+' :: r => (1, r)
    | _ => (1, cs)
  let body := signed.2
  let ip := body.takeWhile (fun c => c ≠ '.')
  match body.dropWhile (fun c => c ≠ '.') with
  | [] =>
    if ip ≠ [] && allDigits ip then some ⟨signed.1 * (digitsVal ip : Int), 0⟩
    else none
  | _ :: fp =>
    if (ip ≠ [] || fp ≠ []) && allDigits ip && allDigits fp && !(fp.contains '.') then
      some ⟨signed.1 * (digitsVal (ip ++ fp) : Int), fp.length⟩
    else none

/-! ## Tokens and the tokenizer

Modelled from the spec, section 4.2: scan left to right; a token is quoted
when it begins with the configured quote character (doubled quotes inside a
quoted span denote one literal quote, the delimiter is inert there), otherwise
its raw text runs verbatim up to the next delimiter. -/

structure Tok where
  content : String
  quoted : Bool
deriving DecidableEq

/-- Scan the inside of a quoted span (the opening quote is already consumed).
Returns the unescaped content and the characters after the closing quote, or
`none` for an unterminated span. -/
def scanQuoted (q : Char) : List Char → Option (List Char × List Char)
  | [] => none
  | c :: cs =>
    if c = q then
      match cs with
      | [] => some ([], [])
      | c2 :: cs2 =>
        if c2 = q then (scanQuoted q cs2).map (fun r => (q :: r.1, r.2))
        else some ([], c2 :: cs2)
    else (scanQuoted q cs).map (fun r => (c :: r.1, r.2))

/-- Scan an unquoted token: verbatim text up to the next delimiter.  The
returned rest still starts with the delimiter when one was found. -/
def scanUnquoted (d : Char) : List Char → List Char × List Char
  | [] => ([], [])
  | c :: cs =>
    if c = d then ([], c :: cs)
    else
      let r := scanUnquoted d cs
      (c :: r.1, r.2)

/-- Extract the first token of a line: a prefix operation, per the spec's
fast-tag extractor ("must tokenize only as far as the end of the first
token"). -/
def firstTok (d : Char) (q : Option Char) (cs : List Char) : Option (Tok × List Char) :=
  match q, cs with
  | some qc, c :: rest =>
    if c = qc then
      (scanQuoted qc rest).map (fun r => (⟨String.mk r.1, true⟩, r.2))
    else
      let r := scanUnquoted d cs
      some (⟨String.mk r.1, false⟩, r.2)
  | _, _ =>
    let r := scanUnquoted d cs
    some (⟨String.mk r.1, false⟩, r.2)

/-- Fuelled tokenizer loop; each step consumes at least one character, so the
fuel `cs.length + 1` supplied by `tokenize` never runs out. -/
def tokenizeF (d : Char) (q : Option Char) : Nat → List Char → Except String (List Tok)
  | 0, _ => .error "tokenizer fuel exhausted"
  | n + 1, cs =>
    match firstTok d q cs with
    | none => .error "unterminated quoted span"
    | some (t, []) => .ok [t]
    | some (t, c :: rest) =>
      if c = d then
        match tokenizeF d q n rest with
        | .ok ts => .ok (t :: ts)
        | .error e => .error e
      else .error "unexpected character after quoted token"

/-- Split a whole line into raw tokens (spec, section 4.2, steps 2, 3 and 5). -/
def tokenize (d : Char) (q : Option Char) (cs : List Char) : Except String (List Tok) :=
  tokenizeF d q (cs.length + 1) cs

/-- Trim a single trailing newline (spec, section 4.2, step 1). -/
def stripNl1 (cs : List Char) : List Char :=
  if cs.getLast? = some '\n' then cs.dropLast else cs

/-- Trailing-delimiter policy (spec, section 4.2, step 4): when enabled the
line must end with one extra delimiter-separated empty position, which is
consumed and not counted as a field token. -/
def applyTrailing (trailing : Bool) (ts : List Tok) : Except String (List Tok) :=
  if trailing then
    match ts.getLast? with
    | some t =>
      if t.content = "" && !t.quoted then .ok ts.dropLast
      else .error "expected trailing delimiter"
    | none => .error "expected trailing delimiter"
  else .ok ts

/-- Tokenization followed by the mandatory-trailing-delimiter policy. -/
def tokenizeTrailing (d : Char) (q : Option Char) (cs : List Char) : Except String (List Tok) :=
  match tokenize d q cs with
  | .error e => .error e
  | .ok ts => applyTrailing true ts

/-! ## Field descriptors and parsed values

Translated from the field dataclasses of
`src/python/xlineparse/__init__.py` (`StrField`, `StrEnumField`, `IntField`,
`IntEnumField`, `FloatField`, `DecimalField`, `BoolField`, `DatetimeField`,
`DateField`, `TimeField`).  Enum fields keep the caller's class as a list of
(member name, member value) pairs; the core only looks at the values, the
Python adapter maps values back to member names. -/

inductive Field
  | fstr (required : Bool) (min_length max_length : Option Nat)
      (invalid_characters : Option (List Char))
  | fstrEnum (required : Bool) (cls : List (String × String))
  | fint (required : Bool) (min_value max_value : Option Int)
  | fintEnum (required : Bool) (cls : List (String × Int))
  | ffloat (required : Bool) (min_value max_value : Option Dec)
  | fdec (required : Bool) (round_decimal_places : Option Nat)
      (min_value max_value : Option Dec)
  | fbool (required : Bool) (true_value : String) (false_value : Option String)
  | fdatetime (required : Bool) (format : String) (time_zone : String)
  | fdate (required : Bool) (format : String)
  | ftime (required : Bool) (format : String)
deriving DecidableEq

def Field.getRequired : Field → Bool
  | .fstr r _ _ _ => r
  | .fstrEnum r _ => r
  | .fint r _ _ => r
  | .fintEnum r _ => r
  | .ffloat r _ _ => r
  | .fdec r _ _ _ => r
  | .fbool r _ _ => r
  | .fdatetime r _ _ => r
  | .fdate r _ => r
  | .ftime r _ => r

/-- `dataclasses.replace(field, required=required)` from `field_type_to_field`. -/
def setRequired : Field → Bool → Field
  | .fstr _ a b c, r => .fstr r a b c
  | .fstrEnum _ a, r => .fstrEnum r a
  | .fint _ a b, r => .fint r a b
  | .fintEnum _ a, r => .fintEnum r a
  | .ffloat _ a b, r => .ffloat r a b
  | .fdec _ a b c, r => .fdec r a b c
  | .fbool _ a b, r => .fbool r a b
  | .fdatetime _ a b, r => .fdatetime r a b
  | .fdate _ a, r => .fdate r a
  | .ftime _ a, r => .ftime r a

def Field.isStr : Field → Bool
  | .fstr _ _ _ _ => true
  | _ => false

def Field.isEnum : Field → Bool
  | .fstrEnum _ _ => true
  | .fintEnum _ _ => true
  | _ => false

/-- A parsed record element: the coerced typed value, or `vnone`, the absence
marker for optional fields whose token was empty (spec, section 3).  IEEE
floating point is represented by the exact decimal the literal denotes; no
claim depends on binary rounding. -/
inductive Value
  | vnone
  | vstr (s : String)
  | vint (n : Int)
  | vfloat (d : Dec)
  | vdec (d : Dec)
  | vbool (b : Bool)
  | vdate (year month day : Nat)
  | vtime (hour minute second : Nat)
  | vdatetime (year month day hour minute second : Nat) (time_zone : String)
deriving DecidableEq

/-! ## Date/time format patterns

Modelled from the spec: "parse the token against the descriptor's format
pattern (a strftime-family pattern)"; directives `%Y %m %d %H %M %S` are
fixed-width digit runs, every other character is a literal that must match. -/

structure DTF where
  year : Nat
  month : Nat
  day : Nat
  hour : Nat
  minute : Nat
  second : Nat
deriving DecidableEq

def dtfDefault : DTF := ⟨1900, 1, 1, 0, 0, 0⟩

def dirWidth (c : Char) : Nat := if c = 'Y' then 4 else 2

def setDirective (f : DTF) (c : Char) (v : Nat) : Option DTF :=
  if c = 'Y' then some ⟨v, f.month, f.day, f.hour, f.minute, f.second⟩
  else if c = 'm' then some ⟨f.year, v, f.day, f.hour, f.minute, f.second⟩
  else if c = 'd' then some ⟨f.year, f.month, v, f.hour, f.minute, f.second⟩
  else if c = 'H' then some ⟨f.year, f.month, f.day, v, f.minute, f.second⟩
  else if c = 'M' then some ⟨f.year, f.month, f.day, f.hour, v, f.second⟩
  else if c = 'S' then some ⟨f.year, f.month, f.day, f.hour, f.minute, v⟩
  else none

def readDigits (n : Nat) (cs : List Char) : Option (Nat × List Char) :=
  let pre := cs.take n
  if pre.length = n && allDigits pre then some (digitsVal pre, cs.drop n) else none

def runFormat : List Char → List Char → DTF → Option DTF
  | [], [], acc => some acc
  | [], _ :: _, _ => none
  | '%' :: c :: fr, tok, acc =>
    match readDigits (dirWidth c) tok with
    | none => none
    | some (v, tr) =>
      match setDirective acc c v with
      | none => none
      | some acc2 => runFormat fr tr acc2
  | fc :: fr, tc :: tr, acc => if fc = tc then runFormat fr tr acc else none
  | _ :: _, [], _ => none

/-- Range validation and the hour-24 wrap.  Modelled from the spec:
"Time-of-day values that encode an hour of 24 are normalized to hour 0 of the
same nominal day (no date rollover ...; minute and second components must
otherwise be within their normal ranges or parsing fails)". -/
def validateDTF (f : DTF) : Option DTF :=
  if f.month = 0 || 12 < f.month || f.day = 0 || 31 < f.day
      || 24 < f.hour || 59 < f.minute || 59 < f.second then none
  else if f.hour = 24 then some ⟨f.year, f.month, f.day, 0, f.minute, f.second⟩
  else some f

def parseWithFormat (fmt tok : String) : Option DTF :=
  match runFormat fmt.data tok.data dtfDefault with
  | none => none
  | some r => validateDTF r

/-! ## The field coercer

Modelled from the spec, section 4.4.  `Cfg` carries the per-schema settings
the coercer needs: the quote character and the `coerce_empty_quoted` policy.
The repository's tests pin that configured boolean/enum values are matched
after stripping an enclosing pair of quote characters
(`test_parse_quoted_weird_bool`, `test_parse_str_enum_weird_quoted`) while
the original configured value is what the core reports back. -/

structure Cfg where
  quote : Option Char
  coerce_empty_quoted : Bool
deriving DecidableEq

/-- Strip one enclosing pair of quote characters from a configured value. -/
def stripQuotes (q : Option Char) (v : String) : String :=
  match q with
  | none => v
  | some qc =>
    match v.data with
    | [] => v
    | c :: rest =>
      if c = qc ∧ rest ≠ [] ∧ rest.getLast? = some qc then String.mk rest.dropLast
      else v

def lenOkMin (minl : Option Nat) (n : Nat) : Bool :=
  match minl with
  | some k => k ≤ n
  | none => true

def lenOkMax (maxl : Option Nat) (n : Nat) : Bool :=
  match maxl with
  | some k => n ≤ k
  | none => true

def boundsOkInt (mn mx : Option Int) (n : Int) : Bool :=
  (match mn with
   | some m => decide (m ≤ n)
   | none => true)
  && (match mx with
      | some m => decide (n ≤ m)
      | none => true)

def boundsOkDec (mn mx : Option Dec) (d : Dec) : Bool :=
  (match mn with
   | some m => m.leb d
   | none => true)
  && (match mx with
      | some m => d.leb m
      | none => true)

/-- String validation (spec: length bounds are character counts; no character
of the token may be a member of `invalid_characters`). -/
def coerceStr (minl maxl : Option Nat) (inv : Option (List Char)) (content : String) :
    Except String Value :=
  if !lenOkMin minl content.length then .error "string shorter than min_length"
  else if !lenOkMax maxl content.length then .error "string longer than max_length"
  else if (match inv with
           | some bad => content.data.any (fun c => bad.contains c)
           | none => false) then .error "string contains invalid character"
  else .ok (.vstr content)

/-- Per-kind coercion of a non-empty token (spec, section 4.4). -/
def coerceNonEmpty (cfg : Cfg) (f : Field) (t : Tok) : Except String Value :=
  match f with
  | .fstr _ minl maxl inv => coerceStr minl maxl inv t.content
  | .fstrEnum _ cls =>
    match cls.find? (fun p => stripQuotes cfg.quote p.2 = t.content) with
    | some p => .ok (.vstr p.2)
    | none => .error "value not in enumeration"
  | .fint _ mn mx =>
    match parseIntTok t.content.data with
    | none => .error "invalid integer"
    | some n => if boundsOkInt mn mx n then .ok (.vint n) else .error "integer out of range"
  | .fintEnum _ cls =>
    match parseIntTok t.content.data with
    | none => .error "invalid integer"
    | some n =>
      if cls.any (fun p => p.2 = n) then .ok (.vint n)
      else .error "value not in enumeration"
  | .ffloat _ mn mx =>
    match parseDecTok t.content.data with
    | none => .error "invalid float"
    | some d => if boundsOkDec mn mx d then .ok (.vfloat d) else .error "float out of range"
  | .fdec _ rnd mn mx =>
    match parseDecTok t.content.data with
    | none => .error "invalid decimal"
    | some d0 =>
      let d := match rnd with
        | some p => d0.roundTo p
        | none => d0
      if boundsOkDec mn mx d then .ok (.vdec d) else .error "decimal out of range"
  | .fbool _ tv fv =>
    if t.content = stripQuotes cfg.quote tv then .ok (.vbool true)
    else
      match fv with
      | some fvs =>
        if t.content = stripQuotes cfg.quote fvs then .ok (.vbool false)
        else .error "value matches neither true nor false representation"
      | none => .error "value matches neither true nor false representation"
  | .fdatetime _ fmt tz =>
    match parseWithFormat fmt t.content with
    | some r => .ok (.vdatetime r.year r.month r.day r.hour r.minute r.second tz)
    | none => .error "datetime pattern mismatch"
  | .fdate _ fmt =>
    match parseWithFormat fmt t.content with
    | some r => .ok (.vdate r.year r.month r.day)
    | none => .error "date pattern mismatch"
  | .ftime _ fmt =>
    match parseWithFormat fmt t.content with
    | some r => .ok (.vtime r.hour r.minute r.second)
    | none => .error "time pattern mismatch"

/-- The shared emptiness rule followed by per-kind coercion.  Modelled from
the spec, section 4.4: an empty optional token is the absence marker, unless
it was quoted-empty and `coerce_empty_quoted` is on and the field is a String
(then it is the empty string); an empty required token is the empty string
for String fields and a missing-required-field error for every other kind. -/
def coerceField (cfg : Cfg) (f : Field) (t : Tok) : Except String Value :=
  if t.content = "" then
    if f.getRequired then
      if f.isStr then .ok (.vstr "") else .error "missing required field"
    else
      if t.quoted && cfg.coerce_empty_quoted && f.isStr then .ok (.vstr "")
      else .ok .vnone
  else coerceNonEmpty cfg f t

/-! ## Line descriptors, schema, dispatch -/

structure LineD where
  name : String
  fields : List Field
deriving DecidableEq

/-- The schema as the Python `Schema` dataclass carries it: delimiter and
quote are plain strings there, serialized as-is for the core
(`Schema.__post_init__`). -/
structure Schema where
  delimiter : String
  quote_str : Option String
  trailing_delimiter : Bool
  coerce_empty_quoted : Bool
  lines : List LineD
deriving DecidableEq

def field_values_ok : Field → Bool
  | .fstrEnum _ cls => !cls.isEmpty
  | .fintEnum _ cls => !cls.isEmpty
  | _ => true

def line_fields_ok (l : LineD) : Bool := l.fields.all field_values_ok

/-- Modelled from the spec: schema construction ("build a Schema once").
Enumeration value sets must be non-empty (spec, section 4.1); element-type
consistency is structural in this embedding.  The repository's own tests pin
that a malformed delimiter or quote does NOT fail construction: `test_errors`
builds such schemas successfully and only the subsequent `parse_line` raises
`LineParseError`, so the length checks live in the per-line entry points
below. -/
def buildSchema (s : Schema) : Except String Schema :=
  if s.lines.all line_fields_ok then .ok s else .error "empty enumeration"

/-- Reduce a configured delimiter or quote string to its single character;
the length violation surfaces as a per-line error (see `buildSchema`). -/
def oneChar (s : String) : Except String Char :=
  match s.data with
  | [c] => .ok c
  | _ => .error "delimiter and quote must be exactly one character"

def getQuote (s : Schema) : Except String (Option Char) :=
  match s.quote_str with
  | none => .ok none
  | some qs =>
    match oneChar qs with
    | .ok c => .ok (some c)
    | .error e => .error e

/-- Dispatcher (spec, section 4.3): first Line Descriptor whose name equals
the tag and whose field count equals the remaining token count. -/
def findLine (lines : List LineD) (tag : String) (n : Nat) : Except String LineD :=
  match lines.find? (fun l => l.name = tag && l.fields.length = n) with
  | some l => .ok l
  | none => .error "unrecognized line shape"

def coerceAll (cfg : Cfg) : List Field → List Tok → Except String (List Value)
  | [], [] => .ok []
  | f :: fs, t :: ts =>
    match coerceField cfg f t with
    | .error e => .error e
    | .ok v =>
      match coerceAll cfg fs ts with
      | .error e => .error e
      | .ok vs => .ok (v :: vs)
  | _, _ => .error "arity mismatch"

/-- The core's per-line parse (spec, sections 4.2 to 4.4): tokenize, apply
the trailing-delimiter policy, dispatch, coerce each field, and return the
tag followed by the typed values. -/
def parseLineCore (s : Schema) (line : String) : Except String (List Value) :=
  match oneChar s.delimiter with
  | .error e => .error e
  | .ok d =>
    match getQuote s with
    | .error e => .error e
    | .ok q =>
      match tokenize d q (stripNl1 line.data) with
      | .error e => .error e
      | .ok ts0 =>
        match applyTrailing s.trailing_delimiter ts0 with
        | .error e => .error e
        | .ok ts =>
          match ts with
          | [] => .error "no tokens"
          | tag :: rest =>
            match findLine s.lines tag.content rest.length with
            | .error e => .error e
            | .ok ld =>
              match coerceAll ⟨q, s.coerce_empty_quoted⟩ ld.fields rest with
              | .error e => .error e
              | .ok vals => .ok (.vstr tag.content :: vals)

/-- The fast-tag extractor (spec, section 4.5): unquote only the first token,
without validating the rest of the line. -/
def parseFirst (s : Schema) (line : String) : Except String String :=
  match oneChar s.delimiter with
  | .error e => .error e
  | .ok d =>
    match getQuote s with
    | .error e => .error e
    | .ok q =>
      match firstTok d q (stripNl1 line.data) with
      | none => .error "unterminated quoted span"
      | some (t, _) => .ok t.content

/-! ## The Python layer: `Schema.parse_line`

Translated from `src/python/xlineparse/__init__.py`, lines 264 to 313:
the `_enum_conversions` index built in `__post_init__`, the enum member
round-trip, and the `LineParseError` wrapping of core failures. -/

/-- A value as `Schema.parse_line` returns it to the caller: either a raw
primitive or a caller-defined enumeration member (named here by the member's
name). -/
inductive PyValue
  | prim (v : Value)
  | member (name : String)
deriving DecidableEq

/-- The `_enum_conversions[line.name][i]` index (Python `__post_init__`,
`enumerate(line.fields, start=1)`): iterating the lines in order over a
`defaultdict`, an enum field at record position `i` of a line named `tag`
overwrites any earlier same-name entry; non-enum fields write nothing. -/
def enumFieldAt (lines : List LineD) (tag : String) (i : Nat) : Option Field :=
  lines.foldl
    (fun acc ld =>
      if ld.name = tag then
        match ld.fields.get? (i - 1) with
        | some f => if f.isEnum then some f else acc
        | none => acc
      else acc)
    none

/-- `cls._value2member_map_[v]`: the member whose value is `v`. -/
def enumLookup : Field → Value → Option String
  | .fstrEnum _ cls, .vstr sv => (cls.find? (fun p => p.2 = sv)).map (fun p => p.1)
  | .fintEnum _ cls, .vint n => (cls.find? (fun p => p.2 = n)).map (fun p => p.1)
  | _, _ => none

/-- The relation "member `m` of the enumeration field carries exactly the raw
primitive `v`" — what `_value2member_map_` guarantees about its result. -/
def enumMemberPair : Field → String → Value → Prop
  | .fstrEnum _ cls, m, .vstr sv => (m, sv) ∈ cls
  | .fintEnum _ cls, m, .vint n => (m, n) ∈ cls
  | _, _, _ => False

/-- One step of the conversion loop in `parse_line`: `if v is not None:
parsed_mut[i] = converter.cls._value2member_map_[v]`.  A missing key is a
(non-`LineParseError`) `KeyError` in Python, modelled as an error here. -/
def convertAt (lines : List LineD) (tag : String) (i : Nat) (v : Value) :
    Except String PyValue :=
  match enumFieldAt lines tag i with
  | some ef =>
    if v = .vnone then .ok (.prim v)
    else
      match enumLookup ef v with
      | some m => .ok (.member m)
      | none => .error "KeyError"
  | none => .ok (.prim v)

def convertList (lines : List LineD) (tag : String) : Nat → List Value →
    Except String (List PyValue)
  | _, [] => .ok []
  | i, v :: vs =>
    match convertAt lines tag i v with
    | .error e => .error e
    | .ok pv =>
      match convertList lines tag (i + 1) vs with
      | .error e => .error e
      | .ok rest => .ok (pv :: rest)

/-- Python `line.rstrip("\n")`: remove every trailing newline. -/
def rstripNl (s : String) : String :=
  String.mk (((s.data.reverse).dropWhile (fun c => c = '\n')).reverse)

/-- `parsed[0]` read as the tag string (the core always puts the tag there). -/
def tagString : Value → String
  | .vstr t => t
  | _ => ""

/-- `Schema.parse_line`: run the core; on a core failure raise a single
`LineParseError` whose message carries the newline-stripped line text and the
cause; on success apply the enum member conversion to every indexed
position.  (Python guards the conversion with `if self._enum_conversions:`;
when no enum field exists every lookup below is `none`, which is the same
behaviour.) -/
def pyParseLine (s : Schema) (line : String) : Except String (List PyValue) :=
  match parseLineCore s line with
  | .error e =>
    .error ("Failed to parse line: \x27" ++ rstripNl line ++ "\x27\n " ++ e)
  | .ok rec =>
    match rec with
    | [] => .ok []
    | tagv :: vals =>
      match convertList s.lines (tagString tagv) 1 vals with
      | .error e => .error e
      | .ok pvs => .ok (.prim tagv :: pvs)

/-! ## The declarative type adapter: `field_type_to_field`

Translated from `src/python/xlineparse/__init__.py`, lines 182 to 219.  A
Python type expression is embedded as `PyT`; `Union` collapses duplicate
members, which the binary `unionT` models by an explicit equality test (the
code asserts that the set of union arguments has exactly two elements). -/

inductive EVal
  | es (s : String)
  | ei (n : Int)
deriving DecidableEq

inductive PyT
  | pstr
  | pint
  | pfloat
  | pdec
  | pnone
  | penum (cls : List (String × EVal))
  | annotated (t : PyT) (f : Field)
  | unionT (a b : PyT)
deriving DecidableEq

/-- `if get_origin(t) is Annotated: t, field = get_args(t)`. -/
def unwrapAnnotatedStep : PyT × Option Field → PyT × Option Field
  | (.annotated t f, _) => (t, some f)
  | p => p

/-- The `Union` branch: `args = set(get_args(t)); assert len(args) == 2;
args -= {None, NoneType}; (t,) = args; required = False`.  The returned flag
is the `required` value after this step. -/
def unionStep (p : PyT × Option Field) : Except String (PyT × Option Field × Bool) :=
  match p.1 with
  | .unionT a b =>
    if a = b then .error "assert len(args) == 2 failed"
    else if a = .pnone then .ok (b, p.2, false)
    else if b = .pnone then .ok (a, p.2, false)
    else .error "cannot unpack: union does not contain None"
  | _ => .ok (p.1, p.2, true)

def allStrVals (cls : List (String × EVal)) : Bool :=
  cls.all (fun p =>
    match p.2 with
    | .es _ => true
    | .ei _ => false)

def allIntVals (cls : List (String × EVal)) : Bool :=
  cls.all (fun p =>
    match p.2 with
    | .es _ => false
    | .ei _ => true)

def strMembers (cls : List (String × EVal)) : List (String × String) :=
  cls.filterMap (fun p =>
    match p.2 with
    | .es s => some (p.1, s)
    | .ei _ => none)

def intMembers (cls : List (String × EVal)) : List (String × Int) :=
  cls.filterMap (fun p =>
    match p.2 with
    | .es _ => none
    | .ei n => some (p.1, n))

/-- The default-field table for bare types (`str`, `int`, `float`, `Decimal`,
enum classes); anything else without an annotation raises. -/
def defaultField : PyT → Except String Field
  | .pstr => .ok (.fstr true none none none)
  | .pint => .ok (.fint true none none)
  | .pfloat => .ok (.ffloat true none none)
  | .pdec => .ok (.fdec true none none none)
  | .penum cls =>
    if allStrVals cls then .ok (.fstrEnum true (strMembers cls))
    else if allIntVals cls then .ok (.fintEnum true (intMembers cls))
    else .error "NotImplementedError: enum values are not all strings or all ints"
  | .pnone => .error "TypeError: None is not a class"
  | .annotated _ _ => .error "RuntimeError: type needs Annotated"
  | .unionT _ _ => .error "RuntimeError: type needs Annotated"

/-- Everything after the union step: the second `Annotated` unwrap, the
default-field table, and the final `replace(field, required=required)`. -/
def finalStage (t2 : PyT) (f2 : Option Field) (required : Bool) : Except String Field :=
  let p3 := unwrapAnnotatedStep (t2, f2)
  match p3.2 with
  | some f => .ok (setRequired f required)
  | none =>
    match defaultField p3.1 with
    | .error e => .error e
    | .ok f => .ok (setRequired f required)

def field_type_to_field (t0 : PyT) : Except String Field :=
  match unionStep (unwrapAnnotatedStep (t0, none)) with
  | .error e => .error e
  | .ok q => finalStage q.1 q.2.1 q.2.2

/-- Is a type expression a union containing `None`? -/
def isOptUnion : PyT → Bool
  | .unionT a b => a = .pnone || b = .pnone
  | _ => false

/-- The spec-side notion the claims use: a type is optional when, after
stripping one `Annotated` layer, it is a union containing `None`. -/
def isOptionalTy (t0 : PyT) : Bool :=
  isOptUnion (unwrapAnnotatedStep (t0, none)).1

/-! ## Concrete schemas used as witnesses and counterexamples -/

def isErr {ε α : Type} : Except ε α → Bool
  | .error _ => true
  | .ok _ => false

/-- `tuple[Literal["a"], int]` with delimiter `|` (from `test_errors`). -/
def aIntSchema : Schema :=
  ⟨"|", none, false, false, [⟨"a", [.fint true none none]⟩]⟩

/-- The same line type with the two-character delimiter `||` that
`test_errors` feeds to `Schema.from_type`. -/
def badDelimSchema : Schema :=
  ⟨"||", none, false, false, [⟨"a", [.fint true none none]⟩]⟩

/-- `tuple[Literal["qwe"], int]` with `trailing_delimiter=True`
(from `test_parse_trailing` and `test_errors`). -/
def qweTrailingSchema : Schema :=
  ⟨"|", none, true, false, [⟨"qwe", [.fint true none none]⟩]⟩

/-- The schema of `test_parse_quoted_weird_bool`: a required boolean field
with `true_value='"Y"'` and `false_value=""`. -/
def weirdBoolSchema : Schema :=
  ⟨",", some "\"", false, false, [⟨"zxc", [.fbool true "\"Y\"" (some "")]⟩]⟩

/-- The schema of `test_parse_str_enum`: `tuple[Literal["foo"], FooEnum,
FooEnum | None]`. -/
def fooEnumSchema : Schema :=
  ⟨"|", none, false, false,
    [⟨"foo",
      [.fstrEnum true [("A", "A"), ("B", "B")],
       .fstrEnum false [("A", "A"), ("B", "B")]]⟩]⟩

/-! ## Helper lemmas -/

theorem getLast?_decomp {α : Type} {l : List α} {a : α} (h : l.getLast? = some a) :
    l = l.dropLast ++ [a] := by
  induction l with
  | nil => simp at h
  | cons x xs ih =>
    cases xs with
    | nil =>
      simp [List.getLast?] at h
      simp [h]
    | cons y ys =>
      rw [List.getLast?_cons_cons] at h
      have := ih h
      simpa [List.dropLast] using this

theorem oneChar_error {s : String} (h : s.length ≠ 1) :
    oneChar s = .error "delimiter and quote must be exactly one character" := by
  have hd : s.data.length ≠ 1 := h
  unfold oneChar
  cases hm : s.data with
  | nil => rfl
  | cons c rest =>
    cases rest with
    | nil =>
      rw [hm] at hd
      exact absurd rfl hd
    | cons c2 r2 => rfl

theorem getQuote_error {s : Schema} {qs : String} (hq : s.quote_str = some qs)
    (h : qs.length ≠ 1) :
    getQuote s = .error "delimiter and quote must be exactly one character" := by
  simp only [getQuote, hq, oneChar_error h]

/-- The first step of a successful tokenization is `firstTok`, and the head
of the token list is the token it returns. -/
theorem tokenize_head {d : Char} {q : Option Char} {cs : List Char} {ts : List Tok}
    (h : tokenize d q cs = .ok ts) :
    ∃ t r, firstTok d q cs = some (t, r) ∧ ts.head? = some t := by
  unfold tokenize tokenizeF at h
  cases hf : firstTok d q cs with
  | none => rw [hf] at h; exact absurd h (by simp)
  | some tr =>
    obtain ⟨t, r⟩ := tr
    rw [hf] at h
    cases r with
    | nil =>
      simp at h
      exact ⟨t, [], rfl, by simp [← h]⟩
    | cons c rest =>
      by_cases hc : c = d
      · simp [hc] at h
        cases hrec : tokenizeF d q cs.length rest with
        | error e => rw [hrec] at h; exact absurd h (by simp)
        | ok ts2 =>
          rw [hrec] at h
          simp at h
          exact ⟨t, c :: rest, rfl, by simp [← h]⟩
      · simp [hc] at h

/-- The trailing-delimiter policy never changes the first token. -/
theorem applyTrailing_head {b : Bool} {ts0 ts : List Tok}
    (h : applyTrailing b ts0 = .ok ts) (hne : ts ≠ []) :
    ts0.head? = ts.head? := by
  cases b with
  | false =>
    simp [applyTrailing] at h
    rw [h]
  | true =>
    unfold applyTrailing at h
    cases hl : ts0.getLast? with
    | none => rw [hl] at h; simp at h
    | some tk =>
      rw [hl] at h
      by_cases hcond : tk.content = "" && !tk.quoted
      · simp [hcond] at h
        subst h
        cases ts0 with
        | nil => simp at hl
        | cons x xs =>
          cases xs with
          | nil => simp [List.dropLast] at hne
          | cons y ys => simp [List.dropLast]
      · simp [hcond] at h

/-! ## C1: delimiter and quote length errors -/

/-- C1 counterexample: the claim says a Schema with a two-character delimiter
"fails at Schema construction time ... and such schema-construction errors
are never raised during a per-line parse call".  On the code (pinned by
`test_errors`) construction succeeds and the very same violation is raised as
a `LineParseError` by `parse_line`. -/
theorem c1_counterexample :
    buildSchema badDelimSchema = .ok badDelimSchema
    ∧ pyParseLine badDelimSchema "a|1" =
        .error "Failed to parse line: \x27a|1\x27\n delimiter and quote must be exactly one character" := by
  exact ⟨rfl, rfl⟩

/-- C1 (amended): constructing a Schema whose delimiter is not exactly one
character, or whose quote string is present but not exactly one character,
succeeds at construction time (construction only validates enumeration value
sets), and the violation is reported as a `LineParseError` on every
subsequent `parse_line` call. -/
theorem c1_length_errors_amended (s : Schema) (l : String)
    (h : s.delimiter.length ≠ 1 ∨ ∃ qs, s.quote_str = some qs ∧ qs.length ≠ 1) :
    isErr (buildSchema s) = !(s.lines.all line_fields_ok)
    ∧ ∃ e, pyParseLine s l =
        .error ("Failed to parse line: \x27" ++ rstripNl l ++ "\x27\n " ++ e) := by
  constructor
  · unfold buildSchema
    by_cases hls : s.lines.all line_fields_ok
    · simp [hls, isErr]
    · simp [hls, isErr]
  · cases h with
    | inl hd =>
      refine ⟨"delimiter and quote must be exactly one character", ?_⟩
      unfold pyParseLine parseLineCore
      rw [oneChar_error hd]
    | inr hq =>
      obtain ⟨qs, hqs, hlen⟩ := hq
      cases hdel : oneChar s.delimiter with
      | error e =>
        refine ⟨e, ?_⟩
        unfold pyParseLine parseLineCore
        rw [hdel]
      | ok d =>
        refine ⟨"delimiter and quote must be exactly one character", ?_⟩
        unfold pyParseLine parseLineCore
        rw [hdel, getQuote_error hqs hlen]

/-- C1 witness: the amended theorem applied to the `test_errors` schema. -/
theorem c1_witness :
    isErr (buildSchema badDelimSchema) = !(badDelimSchema.lines.all line_fields_ok)
    ∧ ∃ e, pyParseLine badDelimSchema "a|1" =
        .error ("Failed to parse line: \x27" ++ rstripNl "a|1" ++ "\x27\n " ++ e) :=
  c1_length_errors_amended badDelimSchema "a|1" (Or.inl (by decide))

/-! ## C3: required Boolean fields with empty false_value -/

/-- C3 counterexample: the claim says a schema containing a required Boolean
field with empty `false_value` is rejected.  The schema of
`test_parse_quoted_weird_bool` is exactly that, is accepted at construction,
and parses its test line successfully. -/
theorem c3_counterexample :
    buildSchema weirdBoolSchema = .ok weirdBoolSchema
    ∧ pyParseLine weirdBoolSchema "\"zxc\",Y" =
        .ok [.prim (.vstr "zxc"), .prim (.vbool true)] := by
  exact ⟨rfl, rfl⟩

/-- C3 (amended): a Boolean field's `false_value` may be the empty string
even when the field is required — such a schema is accepted at Schema
construction (the source documents `false_value` as "can only be '' if
.required", the reverse of the claim's condition). -/
theorem c3_bool_false_value_amended (name tv : String) (req : Bool) :
    buildSchema ⟨",", some "\"", false, false, [⟨name, [.fbool req tv (some "")]⟩]⟩
      = .ok ⟨",", some "\"", false, false, [⟨name, [.fbool req tv (some "")]⟩]⟩ := rfl

/-! ## C8: per-line errors are a single wrapped error kind -/

/-- C8: whenever the core rejects a line (tokenization, dispatch or coercion
failure), `parse_line` raises the single `LineParseError` kind whose message
carries the original line text with trailing newlines stripped followed by
the cause, and the failure is never recovered into a successful record. -/
theorem c8_line_parse_error_message (s : Schema) (l : String) (e : String)
    (h : parseLineCore s l = .error e) :
    pyParseLine s l = .error ("Failed to parse line: \x27" ++ rstripNl l ++ "\x27\n " ++ e)
    ∧ ∀ v, pyParseLine s l ≠ .ok v := by
  constructor
  · unfold pyParseLine
    rw [h]
  · intro v
    unfold pyParseLine
    rw [h]
    simp

/-- C8 witness: the dispatch failure of `test_errors` ("a|1|2", too many
parts), fed with a trailing newline to exercise the stripping. -/
theorem c8_witness :
    pyParseLine aIntSchema "a|1|2\n" =
      .error ("Failed to parse line: \x27" ++ rstripNl "a|1|2\n" ++ "\x27\n " ++ "unrecognized line shape")
    ∧ ∀ v, pyParseLine aIntSchema "a|1|2\n" ≠ .ok v :=
  c8_line_parse_error_message aIntSchema "a|1|2\n" "unrecognized line shape" rfl

/-! ## C4: the shared emptiness rule -/

/-- C4: for every field whose token is empty — optional fields yield the
absence marker, except a quoted-empty token under `coerce_empty_quoted` for
String fields, which yields the empty string; required String fields yield
the empty string, every other required kind fails with the missing-required
error. -/
theorem c4_empty_token_rule (cfg : Cfg) (f : Field) (t : Tok) (h : t.content = "") :
    (f.getRequired = false →
      ¬(t.quoted = true ∧ cfg.coerce_empty_quoted = true ∧ f.isStr = true) →
      coerceField cfg f t = .ok .vnone)
    ∧ (f.getRequired = false → t.quoted = true → cfg.coerce_empty_quoted = true →
        f.isStr = true → coerceField cfg f t = .ok (.vstr ""))
    ∧ (f.getRequired = true → f.isStr = true → coerceField cfg f t = .ok (.vstr ""))
    ∧ (f.getRequired = true → f.isStr = false →
        coerceField cfg f t = .error "missing required field") := by
  refine ⟨fun hr hn => ?_, fun hr hq hcq hs => ?_, fun hr hs => ?_, fun hr hs => ?_⟩
  · unfold coerceField
    cases hq : t.quoted <;> cases hcq : cfg.coerce_empty_quoted <;> cases hs : f.isStr <;>
      simp_all
  · simp [coerceField, h, hr, hq, hcq, hs]
  · simp [coerceField, h, hr, hs]
  · simp [coerceField, h, hr, hs]

/-- C4 witness: an optional String field, quoted-empty token, with
`coerce_empty_quoted` enabled (the last case of `test_emptyness`). -/
theorem c4_witness :
    coerceField ⟨some '"', true⟩ (.fstr false none none none) ⟨"", true⟩ = .ok (.vstr "") :=
  (c4_empty_token_rule ⟨some '"', true⟩ (.fstr false none none none) ⟨"", true⟩ rfl).2.1
    rfl rfl rfl rfl

/-! ## C5: decimal rounding -/

/-- C5: for a Decimal field with `round_decimal_places` set, the parsed value
is rounded to that many fractional digits with round-half-away-from-zero
(ties move away from zero: 2.5 rounds to 3, -2.5 rounds to -3), and the
rounded value is both the returned result and the value checked against the
inclusive bounds; `"2.00001"` rounded to 3 places is exactly the scale-3
decimal 2.000. -/
theorem c5_decimal_rounding (cfg : Cfg) (req : Bool) (p : Nat) (mn mx : Option Dec)
    (t : Tok) (d0 : Dec) (hne : ¬(t.content = ""))
    (hp : parseDecTok t.content.data = some d0) :
    coerceField cfg (.fdec req (some p) mn mx) t =
      (if boundsOkDec mn mx (d0.roundTo p) then .ok (.vdec (d0.roundTo p))
       else .error "decimal out of range")
    ∧ Dec.roundTo ⟨200001, 5⟩ 3 = ⟨2000, 3⟩
    ∧ Dec.roundTo ⟨25, 1⟩ 0 = ⟨3, 0⟩
    ∧ Dec.roundTo ⟨-25, 1⟩ 0 = ⟨-3, 0⟩ := by
  refine ⟨?_, by decide, by decide, by decide⟩
  simp [coerceField, hne, coerceNonEmpty, hp]

/-- C5 witness: scenario E — `"2.00001"` with `round_decimal_places=3`
yields the decimal 2.000 (mantissa 2000 at scale 3). -/
theorem c5_witness :
    coerceField ⟨none, false⟩ (.fdec true (some 3) none none) ⟨"2.00001", false⟩ =
      .ok (.vdec ⟨2000, 3⟩) := by
  rw [(c5_decimal_rounding ⟨none, false⟩ true 3 none none ⟨"2.00001", false⟩ ⟨200001, 5⟩
    (by decide) (by decide)).1]
  decide

/-! ## C6: the trailing-delimiter policy -/

theorem getLast?_append_single {α : Type} (l : List α) (a : α) :
    (l ++ [a]).getLast? = some a := by
  induction l with
  | nil => rfl
  | cons x xs ih =>
    cases xs with
    | nil => rfl
    | cons y ys => simpa using ih

theorem dropLast_append_single {α : Type} (l : List α) (a : α) :
    (l ++ [a]).dropLast = l := by
  induction l with
  | nil => rfl
  | cons x xs ih =>
    cases xs with
    | nil => rfl
    | cons y ys => simpa [List.dropLast] using ih

/-- C6: with `trailing_delimiter=true` a line tokenizes successfully exactly
when the plain tokenization ends in one extra empty (unquoted) position,
which is consumed and not counted as a field token; concretely `"qwe|1|"`
parses to `("qwe", 1)` while `"qwe|1"` fails. -/
theorem c6_trailing_delimiter :
    (∀ (d : Char) (q : Option Char) (cs : List Char) (ts : List Tok),
        tokenizeTrailing d q cs = .ok ts ↔ tokenize d q cs = .ok (ts ++ [⟨"", false⟩]))
    ∧ pyParseLine qweTrailingSchema "qwe|1|" = .ok [.prim (.vstr "qwe"), .prim (.vint 1)]
    ∧ isErr (pyParseLine qweTrailingSchema "qwe|1") = true := by
  refine ⟨?_, rfl, rfl⟩
  intro d q cs ts
  constructor
  · intro h
    cases ht : tokenize d q cs with
    | error e =>
      unfold tokenizeTrailing at h
      rw [ht] at h
      exact absurd h (by simp)
    | ok ts0 =>
      have h2 : applyTrailing true ts0 = .ok ts := by
        unfold tokenizeTrailing at h
        rw [ht] at h
        exact h
      unfold applyTrailing at h2
      cases hl : ts0.getLast? with
      | none =>
        rw [hl] at h2
        simp at h2
      | some tk =>
        rw [hl] at h2
        have h3 : (if (decide (tk.content = "") && !tk.quoted) = true
              then (Except.ok ts0.dropLast : Except String (List Tok))
              else Except.error "expected trailing delimiter") = Except.ok ts := h2
        by_cases hcond : (decide (tk.content = "") && !tk.quoted) = true
        · rw [if_pos hcond] at h3
          have hts : ts0.dropLast = ts := by
            injection h3
          have hdecomp := getLast?_decomp hl
          have htk : tk = ⟨"", false⟩ := by
            obtain ⟨c, qd⟩ := tk
            cases qd with
            | false =>
              have hc : c = "" := by simpa using hcond
              rw [hc]
            | true => simp at hcond
          rw [hdecomp, hts, htk]
        · rw [if_neg hcond] at h3
          simp at h3
  · intro h
    have hap : applyTrailing true (ts ++ [(⟨"", false⟩ : Tok)]) = .ok ts := by
      unfold applyTrailing
      rw [getLast?_append_single]
      simp [dropLast_append_single]
    unfold tokenizeTrailing
    rw [h]
    exact hap

/-- C6 witness: the general equivalence applied to scenario C's line. -/
theorem c6_witness :
    tokenize '|' none "qwe|1|".data = .ok ([⟨"qwe", false⟩, ⟨"1", false⟩] ++ [⟨"", false⟩]) :=
  (c6_trailing_delimiter.1 '|' none "qwe|1|".data [⟨"qwe", false⟩, ⟨"1", false⟩]).mp
    (by decide)

/-! ## C7: hour-24 normalization -/

/-- C7: a parsed time-of-day with hour 24 is normalized to hour 0 with no
change to the date components (no rollover), minute and second must be in
their normal ranges, and `"240000"` against `"%H%M%S"` is time 00:00:00. -/
theorem c7_hour24_wrap :
    (∀ fmt tok r, parseWithFormat fmt tok = some r →
        r.hour ≤ 23 ∧ r.minute ≤ 59 ∧ r.second ≤ 59)
    ∧ (∀ r0 r, validateDTF r0 = some r →
        r.year = r0.year ∧ r.month = r0.month ∧ r.day = r0.day
          ∧ r.minute = r0.minute ∧ r.second = r0.second)
    ∧ parseWithFormat "%H%M%S" "240000" = some ⟨1900, 1, 1, 0, 0, 0⟩
    ∧ coerceField ⟨none, false⟩ (.ftime true "%H%M%S") ⟨"240000", false⟩ = .ok (.vtime 0 0 0)
    ∧ parseWithFormat "%H%M%S" "246000" = none
    ∧ parseWithFormat "%H%M%S" "230060" = none := by
  refine ⟨?_, ?_, by decide, by decide, by decide, by decide⟩
  · intro fmt tok r h
    unfold parseWithFormat at h
    cases hr : runFormat fmt.data tok.data dtfDefault with
    | none => rw [hr] at h; simp at h
    | some r1 =>
      rw [hr] at h
      unfold validateDTF at h
      by_cases hcond : r1.month = 0 || 12 < r1.month || r1.day = 0 || 31 < r1.day
          || 24 < r1.hour || 59 < r1.minute || 59 < r1.second
      · simp [hcond] at h
      · simp only [hcond, if_false, Bool.false_eq_true] at h
        have hb : r1.hour ≤ 24 ∧ r1.minute ≤ 59 ∧ r1.second ≤ 59 := by
          simp at hcond
          omega
        by_cases h24 : r1.hour = 24
        · simp [h24] at h
          rw [← h]
          refine ⟨?_, hb.2.1, hb.2.2⟩
          show (0 : Nat) ≤ 23
          decide
        · simp [h24] at h
          rw [← h]
          exact ⟨by omega, hb.2.1, hb.2.2⟩
  · intro r0 r h
    unfold validateDTF at h
    by_cases hcond : r0.month = 0 || 12 < r0.month || r0.day = 0 || 31 < r0.day
        || 24 < r0.hour || 59 < r0.minute || 59 < r0.second
    · simp [hcond] at h
    · simp only [hcond, if_false, Bool.false_eq_true] at h
      by_cases h24 : r0.hour = 24
      · simp [h24] at h
        rw [← h]
        exact ⟨rfl, rfl, rfl, rfl, rfl⟩
      · simp [h24] at h
        rw [← h]
        exact ⟨rfl, rfl, rfl, rfl, rfl⟩

/-- C7 witness: the range conjunct applied at scenario D's input. -/
theorem c7_witness :
    (⟨1900, 1, 1, 0, 0, 0⟩ : DTF).hour ≤ 23 ∧ (⟨1900, 1, 1, 0, 0, 0⟩ : DTF).minute ≤ 59
      ∧ (⟨1900, 1, 1, 0, 0, 0⟩ : DTF).second ≤ 59 :=
  c7_hour24_wrap.1 "%H%M%S" "240000" ⟨1900, 1, 1, 0, 0, 0⟩ (by decide)

/-! ## C2: the fast path agrees with the full path -/

/-- When the core parses a line to a record, the fast-tag extractor returns
the record's tag. -/
theorem parseFirst_of_core {s : Schema} {l : String} {tag : String} {vals : List Value}
    (h : parseLineCore s l = .ok (.vstr tag :: vals)) :
    parseFirst s l = .ok tag := by
  unfold parseLineCore at h
  split at h
  · exact absurd h (by simp)
  next d hd =>
    split at h
    · exact absurd h (by simp)
    next q hq =>
      split at h
      · exact absurd h (by simp)
      next ts0 ht =>
        split at h
        · exact absurd h (by simp)
        next ts ha =>
          split at h
          · exact absurd h (by simp)
          next tagtok restk =>
            split at h
            · exact absurd h (by simp)
            next ld hld =>
              split at h
              · exact absurd h (by simp)
              next vals2 hca =>
                have htag : tagtok.content = tag := by
                  simp only [Except.ok.injEq, List.cons.injEq, Value.vstr.injEq] at h
                  exact h.1
                obtain ⟨t, r, hft, hhead⟩ := tokenize_head ht
                have hheads := applyTrailing_head ha (by simp)
                have htt : t = tagtok := by
                  rw [hhead] at hheads
                  simp at hheads
                  exact hheads
                simp only [parseFirst, hd, hq, hft]
                rw [htt, htag]

/-- C2: for every Schema and line, whenever the full `parse_line` produces a
record, `parse_first` returns exactly the record's leading tag string. -/
theorem c2_parse_first_matches_parse_line (s : Schema) (l : String) (tag : String)
    (rest : List PyValue)
    (h : pyParseLine s l = .ok (.prim (.vstr tag) :: rest)) :
    parseFirst s l = .ok tag := by
  unfold pyParseLine at h
  split at h
  · exact absurd h (by simp)
  next rec hc =>
    cases rec with
    | nil => exact absurd h (by simp)
    | cons tagv vals =>
      have h1 : (match convertList s.lines (tagString tagv) 1 vals with
          | Except.error e => (Except.error e : Except String (List PyValue))
          | Except.ok pvs => Except.ok (PyValue.prim tagv :: pvs)) =
            .ok (.prim (.vstr tag) :: rest) := h
      cases hcv : convertList s.lines (tagString tagv) 1 vals with
      | error e =>
        rw [hcv] at h1
        exact absurd h1 (by simp)
      | ok pvs =>
        rw [hcv] at h1
        have h2 : (Except.ok (.prim tagv :: pvs) : Except String (List PyValue)) =
            .ok (.prim (.vstr tag) :: rest) := h1
        have htagv : tagv = .vstr tag := by
          simp only [Except.ok.injEq, List.cons.injEq, PyValue.prim.injEq] at h2
          exact h2.1
        rw [htagv] at hc
        exact parseFirst_of_core hc

/-- C2 witness: `parse_line` on `"a|1"` yields `("a", 1)` and `parse_first`
yields `"a"`. -/
theorem c2_witness : parseFirst aIntSchema "a|1" = .ok "a" :=
  c2_parse_first_matches_parse_line aIntSchema "a|1" "a" [.prim (.vint 1)] (by decide)

/-! ## C9: enum member round-trip in `parse_line` -/

/-- A successful `_value2member_map_` lookup returns a member carrying
exactly the looked-up raw primitive. -/
theorem enumLookup_pair {ef : Field} {v : Value} {m : String}
    (h : enumLookup ef v = some m) : enumMemberPair ef m v := by
  cases ef <;> cases v
  case fstrEnum.vstr r cls sv =>
    simp only [enumLookup] at h
    obtain ⟨p, hfind, hm⟩ := Option.map_eq_some'.mp h
    have hmem := List.mem_of_find?_eq_some hfind
    have hval : p.2 = sv := by simpa using List.find?_some hfind
    show (m, sv) ∈ cls
    rw [← hm, ← hval]
    exact hmem
  case fintEnum.vint r cls n =>
    simp only [enumLookup] at h
    obtain ⟨p, hfind, hm⟩ := Option.map_eq_some'.mp h
    have hmem := List.mem_of_find?_eq_some hfind
    have hval : p.2 = n := by simpa using List.find?_some hfind
    show (m, n) ∈ cls
    rw [← hm, ← hval]
    exact hmem
  all_goals exact absurd h (by simp [enumLookup])

/-- Elementwise description of the conversion loop: position `j` of the
output is `convertAt` applied to position `j` of the input, at record index
`i + j`. -/
theorem convertList_get {lines : List LineD} {tag : String} :
    ∀ (vs : List Value) (i : Nat) (pvs : List PyValue),
      convertList lines tag i vs = .ok pvs →
      pvs.length = vs.length ∧
      ∀ j, j < vs.length →
        ∃ v pv, vs.get? j = some v ∧ pvs.get? j = some pv
          ∧ convertAt lines tag (i + j) v = .ok pv := by
  intro vs
  induction vs with
  | nil =>
    intro i pvs h
    have h0 : (Except.ok ([] : List PyValue) : Except String (List PyValue)) = .ok pvs := h
    have hpvs : ([] : List PyValue) = pvs := by injection h0
    subst hpvs
    exact ⟨rfl, fun j hj => absurd hj (by simp)⟩
  | cons v vs ih =>
    intro i pvs h
    have h1 : (match convertAt lines tag i v with
        | .error e => (Except.error e : Except String (List PyValue))
        | .ok pv =>
          match convertList lines tag (i + 1) vs with
          | .error e => .error e
          | .ok rest => .ok (pv :: rest)) = .ok pvs := h
    cases hca : convertAt lines tag i v with
    | error e =>
      rw [hca] at h1
      exact absurd h1 (by simp)
    | ok pv =>
      rw [hca] at h1
      have h2 : (match convertList lines tag (i + 1) vs with
          | .error e => (Except.error e : Except String (List PyValue))
          | .ok rest => .ok (pv :: rest)) = .ok pvs := h1
      cases hcl : convertList lines tag (i + 1) vs with
      | error e =>
        rw [hcl] at h2
        exact absurd h2 (by simp)
      | ok rest =>
        rw [hcl] at h2
        have h3 : (Except.ok (pv :: rest) : Except String (List PyValue)) = .ok pvs := h2
        have hpvs : pv :: rest = pvs := by injection h3
        subst hpvs
        obtain ⟨ihlen, ihget⟩ := ih (i + 1) rest hcl
        refine ⟨by simp [ihlen], ?_⟩
        intro j hj
        cases j with
        | zero =>
          refine ⟨v, pv, rfl, rfl, ?_⟩
          simpa using hca
        | succ k =>
          have hk : k < vs.length := by simpa using hj
          obtain ⟨v2, pv2, hv2, hpv2, hcv2⟩ := ihget k hk
          refine ⟨v2, pv2, by simpa using hv2, by simpa using hpv2, ?_⟩
          have harith : i + (k + 1) = i + 1 + k := by omega
          rw [harith]
          exact hcv2

/-- C9: for every enumeration field position of a successfully parsed line,
`parse_line` returns the enumeration member whose value equals the raw
primitive parsed by the core (via the per-schema value-to-member mapping),
an absent optional value stays the absence marker, and non-enum positions
pass through unchanged. -/
theorem c9_enum_member_mapping (s : Schema) (l : String) (tag : String)
    (vals : List Value) (pvs : List PyValue)
    (hcore : parseLineCore s l = .ok (.vstr tag :: vals))
    (hpy : pyParseLine s l = .ok (.prim (.vstr tag) :: pvs))
    (i : Nat) (hi : i < vals.length) :
    ∃ v, vals.get? i = some v
      ∧ ((v = .vnone → pvs.get? i = some (.prim .vnone))
        ∧ (∀ ef, enumFieldAt s.lines tag (i + 1) = some ef → v ≠ .vnone →
            ∃ m, pvs.get? i = some (.member m) ∧ enumLookup ef v = some m
              ∧ enumMemberPair ef m v)
        ∧ (enumFieldAt s.lines tag (i + 1) = none → pvs.get? i = some (.prim v))) := by
  unfold pyParseLine at hpy
  rw [hcore] at hpy
  have h1 : (match convertList s.lines (tagString (.vstr tag)) 1 vals with
      | Except.error e => (Except.error e : Except String (List PyValue))
      | Except.ok pvs2 => Except.ok (PyValue.prim (.vstr tag) :: pvs2)) =
        .ok (.prim (.vstr tag) :: pvs) := hpy
  cases hclv : convertList s.lines (tagString (.vstr tag)) 1 vals with
  | error e =>
    rw [hclv] at h1
    exact absurd h1 (by simp)
  | ok pvs2 =>
    rw [hclv] at h1
    have h2 : (Except.ok (PyValue.prim (Value.vstr tag) :: pvs2) :
        Except String (List PyValue)) = .ok (.prim (.vstr tag) :: pvs) := h1
    have hpvs : pvs2 = pvs := by
      simp only [Except.ok.injEq, List.cons.injEq] at h2
      exact h2.2
    subst hpvs
    have hconv : convertList s.lines tag 1 vals = .ok pvs2 := hclv
    obtain ⟨hlen, hget⟩ := convertList_get vals 1 pvs2 hconv
    obtain ⟨v, pv, hv, hpv, hca⟩ := hget i hi
    rw [show 1 + i = i + 1 from Nat.add_comm 1 i] at hca
    unfold convertAt at hca
    refine ⟨v, hv, ?_⟩
    split at hca
    next ef hef =>
      by_cases hvn : v = .vnone
      · rw [if_pos hvn] at hca
        have hpvv : PyValue.prim v = pv := by injection hca
        refine ⟨?_, ?_, ?_⟩
        · intro _
          rw [hpv, ← hpvv, hvn]
        · intro ef' hef' hne
          exact absurd hvn hne
        · intro hnone
          rw [hef] at hnone
          exact absurd hnone (by simp)
      · rw [if_neg hvn] at hca
        split at hca
        next m hm =>
          have hpvm : PyValue.member m = pv := by injection hca
          refine ⟨fun hvn2 => absurd hvn2 hvn, ?_, ?_⟩
          · intro ef' hef' hne
            have hefe : ef = ef' := by
              rw [hef] at hef'
              injection hef'
            refine ⟨m, ?_, ?_, ?_⟩
            · rw [hpv, ← hpvm]
            · rw [← hefe]
              exact hm
            · rw [← hefe]
              exact enumLookup_pair hm
          · intro hnone
            rw [hef] at hnone
            exact absurd hnone (by simp)
        next hm => exact absurd hca (by simp)
    next hef =>
      have hpvv : PyValue.prim v = pv := by injection hca
      refine ⟨?_, ?_, ?_⟩
      · intro hvn
        rw [hpv, ← hpvv, hvn]
      · intro ef' hef' hne
        rw [hef] at hef'
        exact absurd hef' (by simp)
      · intro _
        rw [hpv, ← hpvv]

/-- C9 witness: `test_parse_str_enum`'s line `"foo|A|"` at the required enum
position. -/
theorem c9_witness :
    ∃ v, [Value.vstr "A", Value.vnone].get? 0 = some v
      ∧ ((v = .vnone → [PyValue.member "A", PyValue.prim .vnone].get? 0 = some (.prim .vnone))
        ∧ (∀ ef, enumFieldAt fooEnumSchema.lines "foo" (0 + 1) = some ef → v ≠ .vnone →
            ∃ m, [PyValue.member "A", PyValue.prim .vnone].get? 0 = some (.member m)
              ∧ enumLookup ef v = some m ∧ enumMemberPair ef m v)
        ∧ (enumFieldAt fooEnumSchema.lines "foo" (0 + 1) = none →
            [PyValue.member "A", PyValue.prim .vnone].get? 0 = some (.prim v))) :=
  c9_enum_member_mapping fooEnumSchema "foo|A|" "foo" [.vstr "A", .vnone]
    [.member "A", .prim .vnone] (by decide) (by decide) 0 (by decide)

/-! ## C10: the required flag comes only from optionality -/

theorem getRequired_setRequired (f : Field) (b : Bool) :
    (setRequired f b).getRequired = b := by
  cases f <;> rfl

theorem finalStage_required {t2 : PyT} {f2 : Option Field} {req : Bool} {f : Field}
    (h : finalStage t2 f2 req = .ok f) : f.getRequired = req := by
  have h0 : (match (unwrapAnnotatedStep (t2, f2)).2 with
      | some f0 => (Except.ok (setRequired f0 req) : Except String Field)
      | none =>
        match defaultField (unwrapAnnotatedStep (t2, f2)).1 with
        | .error e => .error e
        | .ok f0 => .ok (setRequired f0 req)) = .ok f := h
  cases hp : (unwrapAnnotatedStep (t2, f2)).2 with
  | some f0 =>
    rw [hp] at h0
    have h1 : (Except.ok (setRequired f0 req) : Except String Field) = .ok f := h0
    have : setRequired f0 req = f := by injection h1
    rw [← this]
    exact getRequired_setRequired f0 req
  | none =>
    rw [hp] at h0
    have h1 : (match defaultField (unwrapAnnotatedStep (t2, f2)).1 with
        | .error e => (Except.error e : Except String Field)
        | .ok f0 => .ok (setRequired f0 req)) = .ok f := h0
    cases hd : defaultField (unwrapAnnotatedStep (t2, f2)).1 with
    | error e =>
      rw [hd] at h1
      exact absurd h1 (by simp)
    | ok f0 =>
      rw [hd] at h1
      have h2 : (Except.ok (setRequired f0 req) : Except String Field) = .ok f := h1
      have : setRequired f0 req = f := by injection h2
      rw [← this]
      exact getRequired_setRequired f0 req

theorem unionStep_flag {p : PyT × Option Field} {t2 : PyT} {f2 : Option Field} {req : Bool}
    (h : unionStep p = .ok (t2, f2, req)) : req = !isOptUnion p.1 := by
  unfold unionStep at h
  split at h
  next a b hp =>
    by_cases hab : a = b
    · rw [if_pos hab] at h
      exact absurd h (by simp)
    · rw [if_neg hab] at h
      by_cases ha : a = PyT.pnone
      · rw [if_pos ha] at h
        have h2 : (Except.ok (b, p.2, false) : Except String (PyT × Option Field × Bool)) =
            .ok (t2, f2, req) := h
        have hreq : false = req := by
          simp only [Except.ok.injEq, Prod.mk.injEq] at h2
          exact h2.2.2
        rw [← hreq]
        simp [isOptUnion, hp, ha]
      · rw [if_neg ha] at h
        by_cases hb : b = PyT.pnone
        · rw [if_pos hb] at h
          have h2 : (Except.ok (a, p.2, false) : Except String (PyT × Option Field × Bool)) =
              .ok (t2, f2, req) := h
          have hreq : false = req := by
            simp only [Except.ok.injEq, Prod.mk.injEq] at h2
            exact h2.2.2
          rw [← hreq]
          simp [isOptUnion, hp, hb]
        · rw [if_neg hb] at h
          exact absurd h (by simp)
  next hnu =>
    have h2 : (Except.ok (p.1, p.2, true) : Except String (PyT × Option Field × Bool)) =
        .ok (t2, f2, req) := h
    have hreq : true = req := by
      simp only [Except.ok.injEq, Prod.mk.injEq] at h2
      exact h2.2.2
    rw [← hreq]
    cases hp1 : p.1 with
    | unionT a b => exact (hnu a b hp1).elim
    | pstr => simp [isOptUnion]
    | pint => simp [isOptUnion]
    | pfloat => simp [isOptUnion]
    | pdec => simp [isOptUnion]
    | pnone => simp [isOptUnion]
    | penum cls => simp [isOptUnion]
    | annotated t3 f3 => simp [isOptUnion]

/-- C10: for every type accepted by `field_type_to_field`, the resulting
descriptor's `required` flag is true exactly when the type is not a union
with `None`; in particular an explicit `required=False` inside an `Annotated`
without a `None` union is overwritten back to required. -/
theorem c10_required_from_optionality :
    (∀ t f, field_type_to_field t = .ok f → f.getRequired = !isOptionalTy t)
    ∧ field_type_to_field (.annotated .pstr (.fstr false none none none)) =
        .ok (.fstr true none none none) := by
  refine ⟨?_, by decide⟩
  intro t f h
  unfold field_type_to_field at h
  cases hu : unionStep (unwrapAnnotatedStep (t, none)) with
  | error e =>
    rw [hu] at h
    exact absurd h (by simp)
  | ok q3 =>
    rw [hu] at h
    have h2 : finalStage q3.1 q3.2.1 q3.2.2 = .ok f := h
    have hr := finalStage_required h2
    have hu2 : unionStep (unwrapAnnotatedStep (t, none)) = .ok (q3.1, q3.2.1, q3.2.2) := by
      rw [hu]
    have hflag := unionStep_flag hu2
    rw [hr, hflag]
    rfl

/-- C10 witness: `Annotated[str, StrField(required=False)]` still comes out
required. -/
theorem c10_witness :
    Field.getRequired (.fstr true none none none) =
      !isOptionalTy (.annotated .pstr (.fstr false none none none)) :=
  c10_required_from_optionality.1 (.annotated .pstr (.fstr false none none none))
    (.fstr true none none none) (by decide)

end Xlineparse
